import Mathlib

/-!
Verification development for the scalar function-space module
(`bempp/api/space/scalar_spaces.py`).

The Python source is shallowly embedded below:

* `GridData` models the `grid_data` object: the `elements` array is a
  3 x n integer array stored here as a list of its n columns, and
  `vertices` is referenced only through its column count `numVertices`.
* `vertexNeighbors` models the vertex-neighbor construction in
  `p1_continuous_function_space` (appending, for each element index in
  ascending order, that index once per matching corner).  The serialised
  list-of-lists plus `index_ptr` of the source is represented by the
  per-vertex slice itself, i.e. by a function from a vertex to the list of
  its incident elements.
* `find_index`, `stepLocal`/`appendsOfLocal`, `pass1Loop`, `pass2Slot`,
  `pass2Fill` and `computeP1DofMap` embed `_compute_p1_dof_map`.  The
  first pass iterates over the growing `elements_in_support` list by
  position exactly as a Python `for` loop over a mutated list does; since
  that traversal need not terminate, the loop takes a fuel argument and
  returns `none` when the fuel is exhausted before the position catches
  up with the list length.
* Arrays are modelled as functions from indices to entries; the `uint32`
  stores into `local2global_final` are modelled by `wrap32` (reduction
  modulo 2^32 of the signed value being stored).
* `p0Local2Global` and friends embed `p0_discontinuous_function_space`
  and `p1_discontinuous_function_space`: ascending support elements
  receive consecutive blocks of fresh dof indices
  (`local2global[support] = arange(...)`), so the element with `k`
  support elements before it receives block `k`; `countBelow` is that
  rank.
* `numba_p1_surface_gradient` embeds `_numba_p1_surface_gradient` over
  exact rationals: row `j` of the output slice for basis function `i` is
  the dot product of row `j` of `jac_inv_trans[element]` with the column
  of reference gradients of basis `i`.
-/

namespace BemppScalarSpaces

/-- The mesh data consumed by the dof-map builder: a count of vertex
columns and the list of element columns (3 vertex indices each). -/
structure GridData where
  numVertices : Nat
  elems : List (Nat × Nat × Nat)

/-- Embeds `grid_data.elements.shape[1]`. -/
def GridData.numElements (g : GridData) : Nat := g.elems.length

/-- Embeds `grid_data.elements[l, e]` (out-of-range reads, which the source
never performs, default to 0). -/
def corner (g : GridData) (e l : Nat) : Nat :=
  match g.elems.get? e with
  | some t => if l = 0 then t.1 else if l = 1 then t.2.1 else t.2.2
  | none => 0

/-- The column `grid_data.elements[:, e]`. -/
def cornersList (g : GridData) (e : Nat) : List Nat :=
  [corner g e 0, corner g e 1, corner g e 2]

/-- The vertex-neighbor lists built in `p1_continuous_function_space`:
for each element index in ascending order, the index is appended to the
list of each of its corners (once per matching corner). -/
def vertexNeighbors (g : GridData) (v : Nat) : List Nat :=
  (List.range g.numElements).bind
    (fun e => ((cornersList g e).filter (fun w => w = v)).map (fun _ => e))

/-- Embeds `find_index(array, value)`: first position of `value` in `array`,
`-1` if absent. -/
def find_index : List Nat → Nat → Int
  | [], _ => -1
  | a :: rest, v =>
      if a = v then 0
      else
        let r := find_index rest v
        if r = -1 then -1 else r + 1

/-- Writing at a (possibly negative) index into a row of 3 entries:
Python/numba negative indexing sends `-1` to slot 2. -/
def effectiveSlot (idx : Int) : Nat :=
  if idx < 0 then (3 + idx).toNat else idx.toNat

/-- The arguments of `_compute_p1_dof_map`: grid data, support mask,
the two flags, and the vertex-neighbor adjacency. -/
structure P1Params where
  g : GridData
  support : Nat → Bool
  includeBdy : Bool
  ensure : Bool
  adj : Nat → List Nat

/-- Mutable state of the first pass: the provisional `local2global`
(entries `-1` or a vertex index) and the `vertex_is_dof` flags. -/
structure Pass1State where
  l2g : Nat → Nat → Int
  vertexIsDof : Nat → Bool

/-- Embeds `local2global = -ones(...)` and `vertex_is_dof = zeros(...)`. -/
def initPass1 : Pass1State :=
  { l2g := fun _ _ => -1, vertexIsDof := fun _ => false }

/-- Embeds `[n for n in neighbors if not support[n]]`. -/
def nonSupportNeighbors (P : P1Params) (v : Nat) : List Nat :=
  (P.adj v).filter (fun n => !(P.support n))

/-- Embeds `local2global[e, l] = v; vertex_is_dof[v] = True`. -/
def assignDof (e l v : Nat) (st : Pass1State) : Pass1State :=
  { l2g := fun e2 l2 => if e2 = e ∧ l2 = l then (v : Int) else st.l2g e2 l2,
    vertexIsDof := fun w => if w = v then true else st.vertexIsDof w }

/-- Embeds `other_local_index = find_index(...)` followed by `local2global[en, other_local_index] = v`. -/
def writeNeighbor (P : P1Params) (v en : Nat) (st : Pass1State) : Pass1State :=
  { st with
    l2g := fun e2 l2 =>
      if e2 = en ∧ l2 = effectiveSlot (find_index (cornersList P.g en) v) then (v : Int)
      else st.l2g e2 l2 }

/-- Body of the inner `for local_index in range(3)` loop of the first
pass, state part: the conditional dof assignment followed by the
conditional neighbor writes. -/
def stepLocal (P : P1Params) (e l : Nat) (st : Pass1State) : Pass1State :=
  let v := corner P.g e l
  let ns := nonSupportNeighbors P v
  let st1 := if P.includeBdy || ns.isEmpty then assignDof e l v st else st
  if !ns.isEmpty && P.ensure && P.includeBdy then
    ns.foldl (fun s en => writeNeighbor P v en s) st1
  else st1

/-- Body of the inner loop, worklist part: the elements appended to
`elements_in_support` (they depend only on the immutable grid, support
and flags, never on the mutable state). -/
def appendsOfLocal (P : P1Params) (e l : Nat) : List Nat :=
  let ns := nonSupportNeighbors P (corner P.g e l)
  if !ns.isEmpty && P.ensure && P.includeBdy then ns else []

/-- One iteration of the outer loop of the first pass (3 local slots). -/
def stepElement (P : P1Params) (e : Nat) (st : Pass1State) : Pass1State :=
  stepLocal P e 2 (stepLocal P e 1 (stepLocal P e 0 st))

/-- Elements appended to the worklist while processing element `e`. -/
def appendsOfElement (P : P1Params) (e : Nat) : List Nat :=
  appendsOfLocal P e 0 ++ appendsOfLocal P e 1 ++ appendsOfLocal P e 2

/-- The first pass: a Python `for` loop over `elements_in_support`,
which walks the list by position while the list may grow.  `fuel`
bounds the number of processed positions; `none` means the traversal
was still running when the fuel ran out. -/
def pass1Loop (P : P1Params) : Nat → List Nat → Nat → Pass1State →
    Option (Pass1State × List Nat)
  | 0, wl, i, st => if i < wl.length then none else some (st, wl)
  | fuel + 1, wl, i, st =>
      if h : i < wl.length then
        pass1Loop P fuel (wl ++ appendsOfElement P (wl.get ⟨i, h⟩)) (i + 1)
          (stepElement P (wl.get ⟨i, h⟩) st)
      else some (st, wl)

/-- The list `elements_in_support` as initialised from the support mask. -/
def initialWorklist (P : P1Params) : List Nat :=
  (List.range P.g.numElements).filter P.support

/-- Run the first pass from its initial state. -/
def pass1Run (fuel : Nat) (P : P1Params) : Option (Pass1State × List Nat) :=
  pass1Loop P fuel (initialWorklist P) 0 initPass1

/-- Number of support elements / flagged entries with index below `v`:
the rank used by `arange` numbering over ascending masked positions. -/
def countBelow (p : Nat → Bool) (v : Nat) : Nat :=
  ((List.range v).filter p).length

/-- The `dofs` array: `-1`, overwritten with `arange(len(used_dofs))`
at the ascending positions where `vertex_is_dof` holds. -/
def dofsOf (st : Pass1State) (v : Nat) : Int :=
  if st.vertexIsDof v then (countBelow st.vertexIsDof v : Int) else -1

/-- Embeds `global_dof_count = len(used_dofs)`. -/
def globalDofCountOf (g : GridData) (st : Pass1State) : Nat :=
  ((List.range g.numVertices).filter st.vertexIsDof).length

/-- Storing a signed value into a `uint32` cell. -/
def wrap32 (z : Int) : Nat := (z % (2 ^ 32)).toNat

/-- Mutable state of the second pass: `support_final`,
`local2global_final` and `local_multipliers`, all zero-initialised. -/
structure Pass2State where
  supportFinal : Nat → Bool
  l2gFinal : Nat → Nat → Nat
  mult : Nat → Nat → ℚ

/-- Zero-initialised second-pass arrays. -/
def initPass2 : Pass2State :=
  { supportFinal := fun _ => false, l2gFinal := fun _ _ => 0, mult := fun _ _ => 0 }

/-- Body of the slot loop of the second pass: skip `-1` entries,
otherwise translate the vertex through `dofs`, mark the element and set
the multiplier. -/
def pass2Slot (st : Pass1State) (e l : Nat) (ps : Pass2State) : Pass2State :=
  let vi := st.l2g e l
  if vi = -1 then ps
  else
    { supportFinal := fun e2 => if e2 = e then true else ps.supportFinal e2,
      l2gFinal := fun e2 l2 =>
        if e2 = e ∧ l2 = l then wrap32 (dofsOf st vi.toNat) else ps.l2gFinal e2 l2,
      mult := fun e2 l2 => if e2 = e ∧ l2 = l then 1 else ps.mult e2 l2 }

/-- Embeds `min_dof = np.min(local2global_final[e])` over the 3 slots. -/
def rowMin (ps : Pass2State) (e : Nat) : Nat :=
  min (min (ps.l2gFinal e 0) (ps.l2gFinal e 1)) (ps.l2gFinal e 2)

/-- The fill loop of the second pass: every slot whose provisional entry
is `-1` receives `min_dof` (all fills write the same value, so the three
iterations are a single row transform). -/
def pass2Fill (st : Pass1State) (e : Nat) (ps : Pass2State) : Pass2State :=
  let m := rowMin ps e
  { ps with
    l2gFinal := fun e2 l2 =>
      if e2 = e ∧ l2 < 3 ∧ st.l2g e l2 = -1 then m else ps.l2gFinal e2 l2 }

/-- One iteration of the outer loop of the second pass. -/
def pass2Element (st : Pass1State) (e : Nat) (ps : Pass2State) : Pass2State :=
  pass2Fill st e (pass2Slot st e 2 (pass2Slot st e 1 (pass2Slot st e 0 ps)))

/-- The second pass over the (final) `elements_in_support` list. -/
def pass2Run (st : Pass1State) (wl : List Nat) : Pass2State :=
  wl.foldl (fun ps e => pass2Element st e ps) initPass2

/-- Embeds `_compute_p1_dof_map`: both passes; returns the pair
`(local2global_final, local_multipliers)` (and not `support_final`),
or `none` if the first-pass traversal outlives the fuel. -/
def computeP1DofMap (fuel : Nat) (P : P1Params) :
    Option ((Nat → Nat → Nat) × (Nat → Nat → ℚ)) :=
  (pass1Run fuel P).map
    (fun r => ((pass2Run r.1 r.2).l2gFinal, (pass2Run r.1 r.2).mult))

/-- The space's global dof count for the P1-continuous builder. -/
def p1GlobalDofCount (fuel : Nat) (P : P1Params) : Option Nat :=
  (pass1Run fuel P).map (fun r => globalDofCountOf P.g r.1)

/-- Projection: the provisional `local2global` entry after pass 1. -/
def provisionalEntry (fuel : Nat) (P : P1Params) (e l : Nat) : Option Int :=
  (pass1Run fuel P).map (fun r => r.1.l2g e l)

/-- Projection: a `local2global_final` entry of the returned map. -/
def p1Dof (fuel : Nat) (P : P1Params) (e l : Nat) : Option Nat :=
  (computeP1DofMap fuel P).map (fun r => r.1 e l)

/-- Projection: a `local_multipliers` entry of the returned map. -/
def p1Mult (fuel : Nat) (P : P1Params) (e l : Nat) : Option ℚ :=
  (computeP1DofMap fuel P).map (fun r => r.2 e l)

/-- The value a slot holds right after the slot loop of the second pass,
before the min-fill: `0` for never-assigned slots (the array is
zero-initialised), the translated dof otherwise. -/
def preFillEntry (st : Pass1State) (e l : Nat) : Nat :=
  if st.l2g e l = -1 then 0 else wrap32 (dofsOf st (st.l2g e l).toNat)

/-- The `np.min` the fill loop actually uses: minimum of the element's
row right after the slot loop, never-assigned slots counting as 0. -/
def rowMinPreFill (st : Pass1State) (e : Nat) : Nat :=
  min (min (preFillEntry st e 0) (preFillEntry st e 1)) (preFillEntry st e 2)

/-- Valid mesh: every element column holds vertex indices in range. -/
def ValidGrid (g : GridData) : Prop :=
  ∀ e, e < g.numElements → ∀ l, l < 3 → corner g e l < g.numVertices

/-- The result object of a space builder, restricted to the fields the
claims are about: the stored support mask and the two dof arrays. -/
structure Space where
  support : Nat → Bool
  local2global : Nat → Nat → Nat
  localMultipliers : Nat → Nat → ℚ

/-- Embeds `p1_continuous_function_space`: builds the adjacency, runs
`_compute_p1_dof_map`, and stores the *input* support mask (the mask
produced by `_process_segments`) in the space. -/
def p1ContinuousFunctionSpace (fuel : Nat) (g : GridData) (s : Nat → Bool)
    (ib eg : Bool) : Option Space :=
  (computeP1DofMap fuel ⟨g, s, ib, eg, vertexNeighbors g⟩).map
    (fun r => { support := s, local2global := r.1, localMultipliers := r.2 })

/-- Support elements in ascending order (`np.flatnonzero(support)`). -/
def supportElementsList (g : GridData) (s : Nat → Bool) : List Nat :=
  (List.range g.numElements).filter s

/-- Embeds `support_size = len(elements_in_support)`. -/
def supportSize (g : GridData) (s : Nat → Bool) : Nat :=
  (supportElementsList g s).length

/-- Embeds the `p0_discontinuous_function_space` dof map: ascending support
elements receive `arange(support_size)`; other rows stay 0. -/
def p0Local2Global (g : GridData) (s : Nat → Bool) (e : Nat) : Nat :=
  if e < g.numElements then (if s e then countBelow s e else 0) else 0

/-- The `p0` multipliers: 1 on support rows, 0 elsewhere. -/
def p0LocalMultipliers (g : GridData) (s : Nat → Bool) (e : Nat) : ℚ :=
  if e < g.numElements then (if s e then 1 else 0) else 0

/-- Total dofs handed out by the P0 builder (`arange(support_size)`). -/
def p0GlobalDofCount (g : GridData) (s : Nat → Bool) : Nat :=
  supportSize g s

/-- Embeds the `p1_discontinuous_function_space` dof map: the `k`-th support
element receives row `[3k, 3k+1, 3k+2]` of `arange(3*support_size)`. -/
def p1DiscLocal2Global (g : GridData) (s : Nat → Bool) (e l : Nat) : Nat :=
  if e < g.numElements then (if s e then 3 * countBelow s e + l else 0) else 0

/-- The `p1` discontinuous multipliers: 1 on support rows, 0 elsewhere. -/
def p1DiscLocalMultipliers (g : GridData) (s : Nat → Bool) (e l : Nat) : ℚ :=
  if e < g.numElements then (if s e then 1 else 0) else 0

/-- Total dofs handed out by the P1-discontinuous builder. -/
def p1DiscGlobalDofCount (g : GridData) (s : Nat → Bool) : Nat :=
  3 * supportSize g s

/-- Embeds `_numba_p1_surface_gradient` over exact rationals: entry
`(0, j, i, n)` is the dot product of row `j` of the element's
`jac_inv_trans` with the reference-gradient column of basis `i` at
point `n`. -/
def numba_p1_surface_gradient (N : Nat) (jacInvTrans : Matrix (Fin 3) (Fin 3) ℚ)
    (shapesetGradient : Fin 1 → Fin 3 → Fin 3 → Fin N → ℚ) :
    Fin 1 → Fin 3 → Fin 3 → Fin N → ℚ :=
  fun c j i n => ∑ k : Fin 3, jacInvTrans j k * shapesetGradient c k i n

/-- The spec's count in §8 for `include_boundary_dofs=false`, read
literally: vertices all of whose incident elements are in support
(vacuously including vertices with no incident element). -/
def specCountVerticesAllInSupport (g : GridData) (s : Nat → Bool) : Nat :=
  ((List.range g.numVertices).filter (fun v => (vertexNeighbors g v).all s)).length

/-- The count the code computes (proved below): vertices incident to at
least one element, all of whose incident elements are in support. -/
def interiorVertexCount (g : GridData) (s : Nat → Bool) : Nat :=
  ((List.range g.numVertices).filter
    (fun v => !(vertexNeighbors g v).isEmpty && (vertexNeighbors g v).all s)).length

/-! ### Concrete instances used by counterexamples and witnesses -/

/-- Two triangles sharing the edge (1,2): elements (0,1,2) and (1,2,3). -/
def gridTwoTri : GridData := ⟨4, [(0, 1, 2), (1, 2, 3)]⟩

/-- Support containing only element 0. -/
def supElt0 : Nat → Bool := fun e => e = 0

/-- All elements in support. -/
def supAll : Nat → Bool := fun _ => true

/-- Arguments of `_compute_p1_dof_map` for the non-termination input:
partial support, `include_boundary_dofs=true`,
`ensure_global_continuity=true`. -/
def PC1 : P1Params := ⟨gridTwoTri, supElt0, true, true, vertexNeighbors gridTwoTri⟩

/-- Two-triangle mesh with full support and both flags false. -/
def PTT : P1Params := ⟨gridTwoTri, supAll, false, false, vertexNeighbors gridTwoTri⟩

/-- A strip of three triangles: (0,1,2), (1,2,3), (2,3,4). -/
def gridStrip : GridData := ⟨5, [(0, 1, 2), (1, 2, 3), (2, 3, 4)]⟩

/-- Support containing elements 0 and 1 of the strip. -/
def supStrip : Nat → Bool := fun e => e < 2

/-- Strip arguments with `include_boundary_dofs=false`. -/
def PStrip : P1Params := ⟨gridStrip, supStrip, false, false, vertexNeighbors gridStrip⟩

/-- A support triangle (0,1,2) each of whose vertices also touches a
non-support triangle. -/
def gridRing : GridData := ⟨6, [(0, 1, 2), (0, 1, 3), (1, 2, 4), (0, 2, 5)]⟩

/-- Support containing only element 0 of `gridRing`. -/
def supRing : Nat → Bool := fun e => e = 0

/-- Ring arguments with `include_boundary_dofs=false`. -/
def PRing : P1Params := ⟨gridRing, supRing, false, false, vertexNeighbors gridRing⟩

/-- One triangle (0,1,2) plus an isolated fourth vertex. -/
def gridIso : GridData := ⟨4, [(0, 1, 2)]⟩

/-- Isolated-vertex arguments, full support, flags false. -/
def PIso : P1Params := ⟨gridIso, supAll, false, false, vertexNeighbors gridIso⟩

/-- The first pass as a plain fold, the shape it takes when the
worklist never grows (no element is ever appended). -/
def pass1Fold (P : P1Params) (wl : List Nat) (st : Pass1State) : Pass1State :=
  wl.foldl (fun s e => stepElement P e s) st

/-- A corner of element `e` is assigned a dof for vertex `v` in the
first pass: some local slot of `e` holds `v` and the assignment
condition of the source (`include_boundary_dofs or` no non-support
neighbors) holds for `v`. -/
def AssignCond (P : P1Params) (v e : Nat) : Prop :=
  ∃ l, l < 3 ∧ corner P.g e l = v ∧
    (P.includeBdy || (nonSupportNeighbors P v).isEmpty) = true

/-- First-pass invariant: every provisional `local2global` entry is
`-1` or a flagged vertex, and flagged vertices are in range. -/
def Pass1Invariant (g : GridData) (st : Pass1State) : Prop :=
  (∀ e l, st.l2g e l = -1 ∨
    ∃ v : Nat, st.l2g e l = (v : Int) ∧ st.vertexIsDof v = true) ∧
  (∀ v, st.vertexIsDof v = true → v < g.numVertices)

/-- A concrete reference-gradient callback used to instantiate the
gradient evaluator. -/
def refGradW : Fin 1 → Fin 3 → Fin 3 → Fin 1 → ℚ :=
  fun _ k i _ => (k : ℚ) + 2 * (i : ℚ) + 1

/-! ### Basic lemmas about the embedded helpers -/

theorem mem_vertexNeighbors {g : GridData} {v en : Nat} :
    en ∈ vertexNeighbors g v ↔ en < g.numElements ∧ v ∈ cornersList g en := by
  simp only [vertexNeighbors, List.mem_bind, List.mem_map, List.mem_filter,
    List.mem_range]
  constructor
  · rintro ⟨a, ha, w, ⟨hw, hwv⟩, rfl⟩
    refine ⟨ha, ?_⟩
    have : w = v := by simpa using hwv
    rwa [this] at hw
  · rintro ⟨h1, h2⟩
    exact ⟨en, h1, v, ⟨h2, by simp⟩, rfl⟩

theorem find_index_spec (v : Nat) :
    ∀ l : List Nat,
      (v ∈ l → 0 ≤ find_index l v ∧ find_index l v < (l.length : Int)) ∧
      (v ∉ l → find_index l v = -1) := by
  intro l
  induction l with
  | nil => simp [find_index]
  | cons a rest ih =>
    by_cases hav : a = v
    · refine ⟨fun _ => ?_, fun hn => absurd (by simp [hav]) hn⟩
      simp only [find_index, if_pos hav]
      constructor
      · omega
      · simp only [List.length_cons]
        push_cast
        omega
    · constructor
      · intro hv
        have hvrest : v ∈ rest := by
          rcases List.mem_cons.mp hv with h | h
          · exact absurd h.symm hav
          · exact h
        obtain ⟨h1, h2⟩ := ih.1 hvrest
        simp only [find_index, if_neg hav]
        have hne : find_index rest v ≠ -1 := by omega
        rw [if_neg hne]
        simp only [List.length_cons]
        push_cast
        omega
      · intro hv
        have hvrest : v ∉ rest := fun h => hv (List.mem_cons.mpr (Or.inr h))
        have h2 := ih.2 hvrest
        simp [find_index, hav, h2]

theorem countBelow_lt {p : Nat → Bool} {v n : Nat} (hp : p v = true) (hv : v < n) :
    countBelow p v < ((List.range n).filter p).length := by
  have hsub : List.Sublist (List.range (v + 1)) (List.range n) :=
    List.range_sublist.mpr (by omega)
  have h1 : ((List.range (v + 1)).filter p).length ≤ ((List.range n).filter p).length :=
    (hsub.filter p).length_le
  have h2 : (List.range (v + 1)).filter p = ((List.range v).filter p) ++ [v] := by
    rw [List.range_succ, List.filter_append]
    simp [hp]
  rw [h2, List.length_append] at h1
  simpa [countBelow] using h1

theorem countBelow_get_rank (p : Nat → Bool) :
    ∀ (n k : Nat) (h : k < ((List.range n).filter p).length),
      countBelow p (((List.range n).filter p).get ⟨k, h⟩) = k := by
  intro n
  induction n with
  | zero => intro k h; simp at h
  | succ m ih =>
    intro k h
    have hsplit : (List.range (m + 1)).filter p =
        (List.range m).filter p ++ List.filter p [m] := by
      rw [List.range_succ, List.filter_append]
    by_cases hk : k < ((List.range m).filter p).length
    · have hget : ((List.range (m + 1)).filter p).get ⟨k, h⟩ =
          ((List.range m).filter p).get ⟨k, hk⟩ := by
        have := List.get_of_eq hsplit ⟨k, h⟩
        rw [this, List.get_append k hk]
      rw [hget]
      exact ih k hk
    · have hpm : p m = true := by
        by_contra hpm
        have hnil : List.filter p [m] = [] := by
          simp [List.filter, Bool.eq_false_iff.mpr hpm]
        rw [hsplit, hnil, List.append_nil] at h
        omega
      have hfil : List.filter p [m] = [m] := by simp [List.filter, hpm]
      have hlen : ((List.range (m + 1)).filter p).length =
          ((List.range m).filter p).length + 1 := by
        rw [hsplit, hfil, List.length_append, List.length_singleton]
      have hk2 : k = ((List.range m).filter p).length := by omega
      have hget : ((List.range (m + 1)).filter p).get ⟨k, h⟩ = m := by
        have heq := List.get_of_eq (by rw [hsplit, hfil]) ⟨k, h⟩
        simp only [Fin.val_mk] at heq
        rw [heq, List.get_append_right' (by omega)]
        have hz : k - ((List.range m).filter p).length = 0 := by omega
        simp [hz]
      rw [hget]
      simpa [countBelow] using hk2.symm

/-! ### First pass: structure of the worklist traversal -/

theorem appendsOfLocal_nil {P : P1Params} (hib : P.includeBdy = false) (e l : Nat) :
    appendsOfLocal P e l = [] := by
  simp [appendsOfLocal, hib]

theorem appendsOfElement_nil {P : P1Params} (hib : P.includeBdy = false) (e : Nat) :
    appendsOfElement P e = [] := by
  simp [appendsOfElement, appendsOfLocal_nil hib]

theorem pass1Fold_cons (P : P1Params) (e : Nat) (wl : List Nat) (st : Pass1State) :
    pass1Fold P (e :: wl) st = pass1Fold P wl (stepElement P e st) := rfl

/-- When no element is ever appended, a run of the traversal that
returns is the plain fold over the (unchanged) worklist. -/
theorem pass1Loop_some_eq {P : P1Params} (hnil : ∀ e, appendsOfElement P e = []) :
    ∀ (fuel : Nat) (wl : List Nat) (i : Nat) (st : Pass1State)
      (r : Pass1State × List Nat),
      pass1Loop P fuel wl i st = some r → r = (pass1Fold P (wl.drop i) st, wl) := by
  intro fuel
  induction fuel with
  | zero =>
    intro wl i st r hr
    by_cases h : i < wl.length
    · simp [pass1Loop, h] at hr
    · simp only [pass1Loop, if_neg h, Option.some.injEq] at hr
      have hdrop : wl.drop i = [] := List.drop_eq_nil_of_le (by omega)
      rw [← hr, hdrop]
      rfl
  | succ fuel ih =>
    intro wl i st r hr
    unfold pass1Loop at hr
    split at hr
    case isTrue h =>
      rw [hnil, List.append_nil] at hr
      have hstep := ih _ _ _ _ hr
      have hdrop : wl.drop i = wl.get ⟨i, h⟩ :: wl.drop (i + 1) :=
        (List.get_cons_drop wl ⟨i, h⟩).symm
      rw [hstep, hdrop, pass1Fold_cons]
    case isFalse h =>
      simp only [Option.some.injEq] at hr
      have hdrop : wl.drop i = [] := List.drop_eq_nil_of_le (by omega)
      rw [← hr, hdrop]
      rfl

theorem pass1Run_some_eq {P : P1Params} (hib : P.includeBdy = false)
    {fuel : Nat} {r : Pass1State × List Nat} (hr : pass1Run fuel P = some r) :
    r = (pass1Fold P (initialWorklist P) initPass1, initialWorklist P) := by
  have := pass1Loop_some_eq (fun e => appendsOfElement_nil hib e) fuel
    (initialWorklist P) 0 initPass1 r hr
  simpa using this

/-! ### First pass: which vertices end up flagged as dofs -/

theorem writeNeighborFold_vertexIsDof (P : P1Params) (v0 : Nat) :
    ∀ (ns : List Nat) (st : Pass1State),
      ((ns.foldl (fun s en => writeNeighbor P v0 en s) st).vertexIsDof) =
        st.vertexIsDof := by
  intro ns
  induction ns with
  | nil => intro st; rfl
  | cons a ns ih => intro st; rw [List.foldl_cons, ih]; rfl

theorem writeNeighborFold_l2g (P : P1Params) (v0 : Nat) :
    ∀ (ns : List Nat) (st : Pass1State) (e2 l2 : Nat),
      ((ns.foldl (fun s en => writeNeighbor P v0 en s) st).l2g e2 l2 =
        st.l2g e2 l2) ∨
      ((ns.foldl (fun s en => writeNeighbor P v0 en s) st).l2g e2 l2 =
        (v0 : Int)) := by
  intro ns
  induction ns with
  | nil => intro st e2 l2; exact Or.inl rfl
  | cons a ns ih =>
    intro st e2 l2
    rw [List.foldl_cons]
    rcases ih (writeNeighbor P v0 a st) e2 l2 with h | h
    · rw [h]
      unfold writeNeighbor
      dsimp only
      split
      · exact Or.inr rfl
      · exact Or.inl rfl
    · exact Or.inr h

theorem stepLocal_vertexIsDof (P : P1Params) (e l : Nat) (st : Pass1State) (v : Nat) :
    (stepLocal P e l st).vertexIsDof v = true ↔
      st.vertexIsDof v = true ∨
        (v = corner P.g e l ∧
          (P.includeBdy || (nonSupportNeighbors P (corner P.g e l)).isEmpty) = true) := by
  unfold stepLocal
  dsimp only
  by_cases h2 : (!(nonSupportNeighbors P (corner P.g e l)).isEmpty && P.ensure
      && P.includeBdy) = true
  · rw [if_pos h2, writeNeighborFold_vertexIsDof]
    by_cases h1 : (P.includeBdy || (nonSupportNeighbors P (corner P.g e l)).isEmpty) = true
    · rw [if_pos h1]
      unfold assignDof
      dsimp only
      by_cases hv : v = corner P.g e l
      · simp [hv, h1]
      · simp [hv]
    · rw [if_neg h1]
      simp [h1]
  · rw [if_neg h2]
    by_cases h1 : (P.includeBdy || (nonSupportNeighbors P (corner P.g e l)).isEmpty) = true
    · rw [if_pos h1]
      unfold assignDof
      dsimp only
      by_cases hv : v = corner P.g e l
      · simp [hv, h1]
      · simp [hv]
    · rw [if_neg h1]
      simp [h1]

theorem stepElement_vertexIsDof (P : P1Params) (e : Nat) (st : Pass1State) (v : Nat) :
    (stepElement P e st).vertexIsDof v = true ↔
      st.vertexIsDof v = true ∨ AssignCond P v e := by
  unfold stepElement AssignCond
  rw [stepLocal_vertexIsDof, stepLocal_vertexIsDof, stepLocal_vertexIsDof]
  constructor
  · rintro (((h | ⟨rfl, hc⟩) | ⟨rfl, hc⟩) | ⟨rfl, hc⟩)
    · exact Or.inl h
    · exact Or.inr ⟨0, by omega, rfl, hc⟩
    · exact Or.inr ⟨1, by omega, rfl, hc⟩
    · exact Or.inr ⟨2, by omega, rfl, hc⟩
  · rintro (h | ⟨l, hl, rfl, hc⟩)
    · exact Or.inl (Or.inl (Or.inl h))
    · interval_cases l
      · exact Or.inl (Or.inl (Or.inr ⟨rfl, hc⟩))
      · exact Or.inl (Or.inr ⟨rfl, hc⟩)
      · exact Or.inr ⟨rfl, hc⟩

theorem pass1Fold_vertexIsDof (P : P1Params) :
    ∀ (wl : List Nat) (st : Pass1State) (v : Nat),
      (pass1Fold P wl st).vertexIsDof v = true ↔
        st.vertexIsDof v = true ∨ ∃ e ∈ wl, AssignCond P v e := by
  intro wl
  induction wl with
  | nil => intro st v; simp [pass1Fold]
  | cons a wl ih =>
    intro st v
    rw [pass1Fold_cons, ih, stepElement_vertexIsDof]
    simp only [List.mem_cons]
    constructor
    · rintro ((h | h) | ⟨e, he, hc⟩)
      · exact Or.inl h
      · exact Or.inr ⟨a, Or.inl rfl, h⟩
      · exact Or.inr ⟨e, Or.inr he, hc⟩
    · rintro (h | ⟨e, (rfl | he), hc⟩)
      · exact Or.inl (Or.inl h)
      · exact Or.inl (Or.inr hc)
      · exact Or.inr ⟨e, he, hc⟩

/-! ### First pass: the dof invariant -/

theorem pass1Invariant_init (g : GridData) : Pass1Invariant g initPass1 := by
  constructor
  · intro e l
    exact Or.inl rfl
  · intro v hv
    simp [initPass1] at hv

theorem assignDof_flag_mono (e l v : Nat) {st : Pass1State} {w : Nat}
    (h : st.vertexIsDof w = true) : (assignDof e l v st).vertexIsDof w = true := by
  unfold assignDof
  dsimp only
  split <;> simp [h]

theorem stepLocal_inv (P : P1Params) (hval : ValidGrid P.g) {e : Nat}
    (heE : e < P.g.numElements) (l : Nat) (hl : l < 3) (st : Pass1State)
    (hst : Pass1Invariant P.g st) : Pass1Invariant P.g (stepLocal P e l st) := by
  have hv : corner P.g e l < P.g.numVertices := hval e heE l hl
  unfold stepLocal
  dsimp only
  have hst1 : Pass1Invariant P.g
      (if (P.includeBdy || (nonSupportNeighbors P (corner P.g e l)).isEmpty) = true
       then assignDof e l (corner P.g e l) st else st) := by
    split
    · constructor
      · intro e2 l2
        unfold assignDof
        dsimp only
        split
        · exact Or.inr ⟨corner P.g e l, rfl, by simp⟩
        · rcases hst.1 e2 l2 with h | ⟨w, hw, hflag⟩
          · exact Or.inl h
          · exact Or.inr ⟨w, hw, assignDof_flag_mono e l (corner P.g e l) hflag⟩
      · intro w hw
        unfold assignDof at hw
        dsimp only at hw
        by_cases hwv : w = corner P.g e l
        · rw [hwv]; exact hv
        · rw [if_neg hwv] at hw
          exact hst.2 w hw
    · exact hst
  by_cases h2 : (!(nonSupportNeighbors P (corner P.g e l)).isEmpty && P.ensure
      && P.includeBdy) = true
  · rw [if_pos h2]
    have hib : P.includeBdy = true := by
      revert h2
      cases P.includeBdy <;> simp
    have hcond : (P.includeBdy ||
        (nonSupportNeighbors P (corner P.g e l)).isEmpty) = true := by
      simp [hib]
    rw [if_pos hcond] at hst1 ⊢
    have hflagv : (assignDof e l (corner P.g e l) st).vertexIsDof
        (corner P.g e l) = true := by
      unfold assignDof
      simp
    constructor
    · intro e2 l2
      rcases writeNeighborFold_l2g P (corner P.g e l)
          (nonSupportNeighbors P (corner P.g e l))
          (assignDof e l (corner P.g e l) st) e2 l2 with h | h
      · rw [h]
        rcases hst1.1 e2 l2 with h3 | ⟨w, hw, hflag⟩
        · exact Or.inl h3
        · exact Or.inr ⟨w, hw, by
            rw [writeNeighborFold_vertexIsDof]
            exact hflag⟩
      · rw [h]
        exact Or.inr ⟨corner P.g e l, rfl, by
          rw [writeNeighborFold_vertexIsDof]
          exact hflagv⟩
    · intro w hw
      rw [writeNeighborFold_vertexIsDof] at hw
      exact hst1.2 w hw
  · rw [if_neg h2]
    exact hst1

theorem stepElement_inv (P : P1Params) (hval : ValidGrid P.g) {e : Nat}
    (heE : e < P.g.numElements) (st : Pass1State)
    (hst : Pass1Invariant P.g st) : Pass1Invariant P.g (stepElement P e st) := by
  unfold stepElement
  exact stepLocal_inv P hval heE 2 (by omega) _
    (stepLocal_inv P hval heE 1 (by omega) _
      (stepLocal_inv P hval heE 0 (by omega) _ hst))

theorem mem_appendsOfLocal {P : P1Params} {n e l : Nat}
    (h : n ∈ appendsOfLocal P e l) : n ∈ P.adj (corner P.g e l) := by
  unfold appendsOfLocal at h
  dsimp only at h
  split at h
  · exact List.mem_of_mem_filter h
  · simp at h

theorem mem_appendsOfElement {P : P1Params} {n e : Nat}
    (h : n ∈ appendsOfElement P e) : ∃ v, n ∈ P.adj v := by
  unfold appendsOfElement at h
  rcases List.mem_append.mp h with h1 | h1
  · rcases List.mem_append.mp h1 with h2 | h2
    · exact ⟨_, mem_appendsOfLocal h2⟩
    · exact ⟨_, mem_appendsOfLocal h2⟩
  · exact ⟨_, mem_appendsOfLocal h1⟩

theorem pass1Loop_inv (P : P1Params) (hval : ValidGrid P.g)
    (hadj : ∀ v n, n ∈ P.adj v → n < P.g.numElements) :
    ∀ (fuel : Nat) (wl : List Nat) (i : Nat) (st : Pass1State)
      (r : Pass1State × List Nat),
      (∀ e ∈ wl, e < P.g.numElements) → Pass1Invariant P.g st →
      pass1Loop P fuel wl i st = some r → Pass1Invariant P.g r.1 := by
  intro fuel
  induction fuel with
  | zero =>
    intro wl i st r hwl hst hr
    by_cases h : i < wl.length
    · simp [pass1Loop, h] at hr
    · simp only [pass1Loop, if_neg h, Option.some.injEq] at hr
      rw [← hr]
      exact hst
  | succ fuel ih =>
    intro wl i st r hwl hst hr
    unfold pass1Loop at hr
    split at hr
    case isTrue h =>
      refine ih _ _ _ _ ?_ ?_ hr
      · intro e he
        rcases List.mem_append.mp he with h1 | h1
        · exact hwl e h1
        · obtain ⟨v, hv⟩ := mem_appendsOfElement h1
          exact hadj v e hv
      · exact stepElement_inv P hval (hwl _ (List.get_mem wl i h)) st hst
    case isFalse h =>
      simp only [Option.some.injEq] at hr
      rw [← hr]
      exact hst

theorem vertexNeighbors_lt (g : GridData) :
    ∀ v n, n ∈ vertexNeighbors g v → n < g.numElements := by
  intro v n h
  exact (mem_vertexNeighbors.mp h).1

theorem initialWorklist_lt (P : P1Params) :
    ∀ e ∈ initialWorklist P, e < P.g.numElements := by
  intro e he
  have := List.mem_filter.mp he
  exact List.mem_range.mp this.1

theorem initialWorklist_mem {P : P1Params} {e : Nat}
    (he : e < P.g.numElements) (hse : P.support e = true) :
    e ∈ initialWorklist P := by
  exact List.mem_filter.mpr ⟨List.mem_range.mpr he, hse⟩

theorem initialWorklist_nodup (P : P1Params) : (initialWorklist P).Nodup :=
  (List.nodup_range _).filter _

/-! ### Second pass: pointwise descriptions of the updates -/

theorem pass2Slot_l2gFinal (st : Pass1State) (e k : Nat) (ps : Pass2State)
    (e2 l2 : Nat) :
    (pass2Slot st e k ps).l2gFinal e2 l2 =
      if st.l2g e k ≠ -1 ∧ e2 = e ∧ l2 = k then wrap32 (dofsOf st (st.l2g e k).toNat)
      else ps.l2gFinal e2 l2 := by
  unfold pass2Slot
  dsimp only
  by_cases h : st.l2g e k = -1
  · simp [h]
  · simp only [if_neg h]
    by_cases h2 : e2 = e ∧ l2 = k
    · simp [h, h2]
    · simp [h, h2]

theorem pass2Slot_mult (st : Pass1State) (e k : Nat) (ps : Pass2State)
    (e2 l2 : Nat) :
    (pass2Slot st e k ps).mult e2 l2 =
      if st.l2g e k ≠ -1 ∧ e2 = e ∧ l2 = k then 1 else ps.mult e2 l2 := by
  unfold pass2Slot
  dsimp only
  by_cases h : st.l2g e k = -1
  · simp [h]
  · simp only [if_neg h]
    by_cases h2 : e2 = e ∧ l2 = k
    · simp [h, h2]
    · simp [h, h2]

theorem pass2Slot_supportFinal (st : Pass1State) (e k : Nat) (ps : Pass2State)
    (e2 : Nat) :
    (pass2Slot st e k ps).supportFinal e2 =
      if st.l2g e k ≠ -1 ∧ e2 = e then true else ps.supportFinal e2 := by
  unfold pass2Slot
  dsimp only
  by_cases h : st.l2g e k = -1
  · simp [h]
  · simp only [if_neg h]
    by_cases h2 : e2 = e
    · simp [h, h2]
    · simp [h, h2]

theorem pass2Fill_l2gFinal (st : Pass1State) (e : Nat) (ps : Pass2State)
    (e2 l2 : Nat) :
    (pass2Fill st e ps).l2gFinal e2 l2 =
      if e2 = e ∧ l2 < 3 ∧ st.l2g e l2 = -1 then rowMin ps e
      else ps.l2gFinal e2 l2 := rfl

theorem pass2Fill_mult (st : Pass1State) (e : Nat) (ps : Pass2State) (e2 l2 : Nat) :
    (pass2Fill st e ps).mult e2 l2 = ps.mult e2 l2 := rfl

theorem pass2Fill_supportFinal (st : Pass1State) (e : Nat) (ps : Pass2State)
    (e2 : Nat) :
    (pass2Fill st e ps).supportFinal e2 = ps.supportFinal e2 := rfl

theorem pass2Element_other (st : Pass1State) (e : Nat) (ps : Pass2State)
    {e2 : Nat} (l2 : Nat) (h : e2 ≠ e) :
    (pass2Element st e ps).l2gFinal e2 l2 = ps.l2gFinal e2 l2 ∧
    (pass2Element st e ps).mult e2 l2 = ps.mult e2 l2 ∧
    (pass2Element st e ps).supportFinal e2 = ps.supportFinal e2 := by
  unfold pass2Element
  refine ⟨?_, ?_, ?_⟩
  · rw [pass2Fill_l2gFinal, if_neg (by tauto), pass2Slot_l2gFinal,
      if_neg (by tauto), pass2Slot_l2gFinal, if_neg (by tauto),
      pass2Slot_l2gFinal, if_neg (by tauto)]
  · rw [pass2Fill_mult, pass2Slot_mult, if_neg (by tauto), pass2Slot_mult,
      if_neg (by tauto), pass2Slot_mult, if_neg (by tauto)]
  · rw [pass2Fill_supportFinal, pass2Slot_supportFinal, if_neg (by tauto),
      pass2Slot_supportFinal, if_neg (by tauto), pass2Slot_supportFinal,
      if_neg (by tauto)]

theorem pass2Fold_other (st : Pass1State) :
    ∀ (ws : List Nat) (ps : Pass2State) {e2 : Nat} (l2 : Nat), e2 ∉ ws →
      ((ws.foldl (fun ps e => pass2Element st e ps) ps).l2gFinal e2 l2 =
        ps.l2gFinal e2 l2) ∧
      ((ws.foldl (fun ps e => pass2Element st e ps) ps).mult e2 l2 =
        ps.mult e2 l2) ∧
      ((ws.foldl (fun ps e => pass2Element st e ps) ps).supportFinal e2 =
        ps.supportFinal e2) := by
  intro ws
  induction ws with
  | nil => intro ps e2 l2 _; exact ⟨rfl, rfl, rfl⟩
  | cons a ws ih =>
    intro ps e2 l2 hmem
    have hne : e2 ≠ a := fun h => hmem (h ▸ List.mem_cons_self a ws)
    have hrest : e2 ∉ ws := fun h => hmem (List.mem_cons_of_mem a h)
    rw [List.foldl_cons]
    obtain ⟨ha1, ha2, ha3⟩ := pass2Element_other st a ps l2 hne
    obtain ⟨hb1, hb2, hb3⟩ := ih (pass2Element st a ps) l2 hrest
    exact ⟨hb1.trans ha1, hb2.trans ha2, hb3.trans ha3⟩

/-- Processing element `e` on a state whose row `e` is still
zero-initialised: the slot loop yields the pre-fill row, then the fill
writes the minimum of that row into the never-assigned slots. -/
theorem pass2Element_self (st : Pass1State) (e : Nat) (ps : Pass2State)
    (h0 : ∀ l, l < 3 → ps.l2gFinal e l = 0 ∧ ps.mult e l = 0) :
    ∀ l, l < 3 →
      (pass2Element st e ps).l2gFinal e l =
        (if st.l2g e l = -1 then rowMinPreFill st e else preFillEntry st e l) ∧
      (pass2Element st e ps).mult e l = (if st.l2g e l = -1 then 0 else 1) := by
  have hslot : ∀ l, l < 3 →
      (pass2Slot st e 2 (pass2Slot st e 1 (pass2Slot st e 0 ps))).l2gFinal e l =
        preFillEntry st e l ∧
      (pass2Slot st e 2 (pass2Slot st e 1 (pass2Slot st e 0 ps))).mult e l =
        (if st.l2g e l = -1 then 0 else 1) := by
    intro l hl
    interval_cases l
    · rw [pass2Slot_l2gFinal, pass2Slot_l2gFinal, pass2Slot_l2gFinal,
        pass2Slot_mult, pass2Slot_mult, pass2Slot_mult]
      simp only [preFillEntry]
      by_cases hc : st.l2g e 0 = -1
      · simp [hc, (h0 0 (by omega)).1, (h0 0 (by omega)).2]
      · simp [hc]
    · rw [pass2Slot_l2gFinal, pass2Slot_l2gFinal, pass2Slot_l2gFinal,
        pass2Slot_mult, pass2Slot_mult, pass2Slot_mult]
      simp only [preFillEntry]
      by_cases hc : st.l2g e 1 = -1
      · simp [hc, (h0 1 (by omega)).1, (h0 1 (by omega)).2]
      · simp [hc]
    · rw [pass2Slot_l2gFinal, pass2Slot_l2gFinal, pass2Slot_l2gFinal,
        pass2Slot_mult, pass2Slot_mult, pass2Slot_mult]
      simp only [preFillEntry]
      by_cases hc : st.l2g e 2 = -1
      · simp [hc, (h0 2 (by omega)).1, (h0 2 (by omega)).2]
      · simp [hc]
  have hmin : rowMin (pass2Slot st e 2 (pass2Slot st e 1 (pass2Slot st e 0 ps))) e =
      rowMinPreFill st e := by
    unfold rowMin rowMinPreFill
    rw [(hslot 0 (by omega)).1, (hslot 1 (by omega)).1, (hslot 2 (by omega)).1]
  intro l hl
  unfold pass2Element
  rw [pass2Fill_l2gFinal, pass2Fill_mult, hmin]
  constructor
  · by_cases hc : st.l2g e l = -1
    · rw [if_pos ⟨rfl, hl, hc⟩, if_pos hc]
    · rw [if_neg (by tauto), if_neg hc]
      exact (hslot l hl).1
  · exact (hslot l hl).2

/-- Row description of the full second pass for an element occurring
exactly once in the processed list. -/
theorem pass2Run_row (st : Pass1State) (wl : List Nat) (e : Nat)
    (hnd : wl.Nodup) (he : e ∈ wl) :
    ∀ l, l < 3 →
      (pass2Run st wl).l2gFinal e l =
        (if st.l2g e l = -1 then rowMinPreFill st e else preFillEntry st e l) ∧
      (pass2Run st wl).mult e l = (if st.l2g e l = -1 then 0 else 1) := by
  obtain ⟨u, t, rfl⟩ := List.append_of_mem he
  have hnu : e ∉ u := by
    rcases List.nodup_append.mp hnd with ⟨_, _, hdisj⟩
    intro hu
    exact hdisj hu (List.mem_cons_self e t)
  have hnt : e ∉ t := by
    rcases List.nodup_append.mp hnd with ⟨_, hcons, _⟩
    exact (List.nodup_cons.mp hcons).1
  intro l hl
  unfold pass2Run
  rw [List.foldl_append, List.foldl_cons]
  have hu := fun l2 => pass2Fold_other st u initPass2 l2 hnu
  have hrow0 : ∀ l2, l2 < 3 →
      (u.foldl (fun ps e2 => pass2Element st e2 ps) initPass2).l2gFinal e l2 = 0 ∧
      (u.foldl (fun ps e2 => pass2Element st e2 ps) initPass2).mult e l2 = 0 := by
    intro l2 _
    exact ⟨(hu l2).1, (hu l2).2.1⟩
  have hself := pass2Element_self st e _ hrow0 l hl
  have ht := pass2Fold_other st t
    (pass2Element st e (u.foldl (fun ps e2 => pass2Element st e2 ps) initPass2)) l hnt
  exact ⟨ht.1.trans hself.1, ht.2.1.trans hself.2⟩

/-- Processing one element preserves the multiplier-1 description. -/
theorem pass2Element_mult_one (st : Pass1State)
    (hst : ∀ e l, st.l2g e l = -1 ∨
      ∃ v : Nat, st.l2g e l = (v : Int) ∧ st.vertexIsDof v = true)
    (a : Nat) (ps : Pass2State)
    (hps : ∀ e l, ps.mult e l = 1 →
      ∃ v : Nat, st.l2g e l = (v : Int) ∧ st.vertexIsDof v = true ∧
        ps.l2gFinal e l = wrap32 (dofsOf st v)) :
    ∀ e l, (pass2Element st a ps).mult e l = 1 →
      ∃ v : Nat, st.l2g e l = (v : Int) ∧ st.vertexIsDof v = true ∧
        (pass2Element st a ps).l2gFinal e l = wrap32 (dofsOf st v) := by
  intro e l hm
  by_cases hea : e = a
  case neg =>
    obtain ⟨hl2g, hmult, _⟩ := pass2Element_other st a ps l hea
    rw [hmult] at hm
    obtain ⟨v, hv, hflag, hval⟩ := hps e l hm
    exact ⟨v, hv, hflag, hl2g.trans hval⟩
  case pos =>
    subst hea
    unfold pass2Element at hm ⊢
    rw [pass2Fill_mult, pass2Slot_mult, pass2Slot_mult, pass2Slot_mult] at hm
    by_cases hl3 : l < 3
    case pos =>
      interval_cases l
      · by_cases hc : st.l2g e 0 = -1
        · rw [if_neg (by tauto), if_neg (by tauto), if_neg (by tauto)] at hm
          obtain ⟨v, hv, _, _⟩ := hps e 0 hm
          rw [hc] at hv
          omega
        · rcases hst e 0 with h0 | ⟨v, hv, hflag⟩
          · exact absurd h0 hc
          · refine ⟨v, hv, hflag, ?_⟩
            rw [pass2Fill_l2gFinal, if_neg (by
                rintro ⟨-, -, hcon⟩
                exact hc hcon),
              pass2Slot_l2gFinal, if_neg (by tauto),
              pass2Slot_l2gFinal, if_neg (by tauto),
              pass2Slot_l2gFinal, if_pos ⟨hc, rfl, rfl⟩, hv]
            simp
      · by_cases hc : st.l2g e 1 = -1
        · rw [if_neg (by tauto), if_neg (by tauto), if_neg (by tauto)] at hm
          obtain ⟨v, hv, _, _⟩ := hps e 1 hm
          rw [hc] at hv
          omega
        · rcases hst e 1 with h0 | ⟨v, hv, hflag⟩
          · exact absurd h0 hc
          · refine ⟨v, hv, hflag, ?_⟩
            rw [pass2Fill_l2gFinal, if_neg (by
                rintro ⟨-, -, hcon⟩
                exact hc hcon),
              pass2Slot_l2gFinal, if_neg (by tauto),
              pass2Slot_l2gFinal, if_pos ⟨hc, rfl, rfl⟩, hv]
            simp
      · by_cases hc : st.l2g e 2 = -1
        · rw [if_neg (by tauto), if_neg (by tauto), if_neg (by tauto)] at hm
          obtain ⟨v, hv, _, _⟩ := hps e 2 hm
          rw [hc] at hv
          omega
        · rcases hst e 2 with h0 | ⟨v, hv, hflag⟩
          · exact absurd h0 hc
          · refine ⟨v, hv, hflag, ?_⟩
            rw [pass2Fill_l2gFinal, if_neg (by
                rintro ⟨-, -, hcon⟩
                exact hc hcon),
              pass2Slot_l2gFinal, if_pos ⟨hc, rfl, rfl⟩, hv]
            simp
    case neg =>
      rw [if_neg (by omega), if_neg (by omega), if_neg (by omega)] at hm
      obtain ⟨v, hv, hflag, hval⟩ := hps e l hm
      refine ⟨v, hv, hflag, ?_⟩
      rw [pass2Fill_l2gFinal, if_neg (by
          rintro ⟨-, hcon, -⟩
          omega),
        pass2Slot_l2gFinal, if_neg (by omega),
        pass2Slot_l2gFinal, if_neg (by omega),
        pass2Slot_l2gFinal, if_neg (by omega)]
      exact hval

/-- Multiplier-1 positions of the second pass always carry a translated
flagged vertex, whatever the processed list is. -/
theorem pass2Run_mult_one (st : Pass1State)
    (hst : ∀ e l, st.l2g e l = -1 ∨
      ∃ v : Nat, st.l2g e l = (v : Int) ∧ st.vertexIsDof v = true) :
    ∀ (wl : List Nat) (e l : Nat), (pass2Run st wl).mult e l = 1 →
      ∃ v : Nat, st.l2g e l = (v : Int) ∧ st.vertexIsDof v = true ∧
        (pass2Run st wl).l2gFinal e l = wrap32 (dofsOf st v) := by
  have key : ∀ (wl : List Nat) (ps : Pass2State),
      (∀ e l, ps.mult e l = 1 →
        ∃ v : Nat, st.l2g e l = (v : Int) ∧ st.vertexIsDof v = true ∧
          ps.l2gFinal e l = wrap32 (dofsOf st v)) →
      ∀ e l, (wl.foldl (fun ps e2 => pass2Element st e2 ps) ps).mult e l = 1 →
        ∃ v : Nat, st.l2g e l = (v : Int) ∧ st.vertexIsDof v = true ∧
          (wl.foldl (fun ps e2 => pass2Element st e2 ps) ps).l2gFinal e l =
            wrap32 (dofsOf st v) := by
    intro wl
    induction wl with
    | nil => intro ps hps e l h; exact hps e l h
    | cons a wl ih =>
      intro ps hps e l h
      rw [List.foldl_cons] at h ⊢
      exact ih (pass2Element st a ps) (pass2Element_mult_one st hst a ps hps) e l h
  intro wl e l h
  refine key wl initPass2 ?_ e l h
  intro e2 l2 hm
  simp [initPass2] at hm

/-! ### Dof numbering and counting -/

theorem wrap32_ofNat {n : Nat} (h : n < 2 ^ 32) : wrap32 (n : Int) = n := by
  unfold wrap32
  rw [Int.emod_eq_of_lt (by omega) (by
    push_cast
    omega)]
  simp

theorem globalDofCountOf_le (g : GridData) (st : Pass1State) :
    globalDofCountOf g st ≤ g.numVertices := by
  unfold globalDofCountOf
  have := List.length_filter_le st.vertexIsDof (List.range g.numVertices)
  simpa using this

theorem dofsOf_lt_count {g : GridData} {st : Pass1State} {v : Nat}
    (hflag : st.vertexIsDof v = true) (hv : v < g.numVertices) :
    dofsOf st v = (countBelow st.vertexIsDof v : Int) ∧
      countBelow st.vertexIsDof v < globalDofCountOf g st := by
  constructor
  · unfold dofsOf
    rw [if_pos hflag]
  · exact countBelow_lt hflag hv

theorem mem_cornersList_iff {g : GridData} {e v : Nat} :
    v ∈ cornersList g e ↔ ∃ l, l < 3 ∧ corner g e l = v := by
  constructor
  · intro h
    rcases List.mem_cons.mp h with h0 | h
    · exact ⟨0, by omega, h0.symm⟩
    · rcases List.mem_cons.mp h with h1 | h
      · exact ⟨1, by omega, h1.symm⟩
      · rcases List.mem_cons.mp h with h2 | h
        · exact ⟨2, by omega, h2.symm⟩
        · simp at h
  · rintro ⟨l, hl, rfl⟩
    interval_cases l
    · exact List.mem_cons_self _ _
    · exact List.mem_cons_of_mem _ (List.mem_cons_self _ _)
    · exact List.mem_cons_of_mem _ (List.mem_cons_of_mem _ (List.mem_cons_self _ _))

/-- With `include_boundary_dofs = false`, the vertices flagged by the
first pass are exactly the vertices incident to at least one element
all of whose incident elements are in support. -/
theorem pass1Fold_flag_include_false (g : GridData) (s : Nat → Bool) (eg : Bool)
    (v : Nat) :
    (pass1Fold ⟨g, s, false, eg, vertexNeighbors g⟩
        (initialWorklist ⟨g, s, false, eg, vertexNeighbors g⟩)
        initPass1).vertexIsDof v = true ↔
      (vertexNeighbors g v ≠ [] ∧ ∀ n ∈ vertexNeighbors g v, s n = true) := by
  rw [pass1Fold_vertexIsDof]
  constructor
  · rintro (h | ⟨e, he, l, hl, hc, hcond⟩)
    · simp [initPass1] at h
    · have hempty : nonSupportNeighbors ⟨g, s, false, eg, vertexNeighbors g⟩ v = [] := by
        have : (nonSupportNeighbors ⟨g, s, false, eg, vertexNeighbors g⟩ v).isEmpty
            = true := by simpa using hcond
        exact List.isEmpty_iff.mp this
      have hall : ∀ n ∈ vertexNeighbors g v, s n = true := by
        intro n hn
        have := List.filter_eq_nil_iff.mp hempty n hn
        simpa using this
      refine ⟨?_, hall⟩
      have heE : e < g.numElements := initialWorklist_lt _ e he
      have hvmem : e ∈ vertexNeighbors g v :=
        mem_vertexNeighbors.mpr ⟨heE, mem_cornersList_iff.mpr ⟨l, hl, hc⟩⟩
      intro hnil
      rw [hnil] at hvmem
      simp at hvmem
  · rintro ⟨hne, hall⟩
    obtain ⟨e, he⟩ := List.exists_mem_of_ne_nil _ hne
    obtain ⟨heE, hcorn⟩ := mem_vertexNeighbors.mp he
    obtain ⟨l, hl, hc⟩ := mem_cornersList_iff.mp hcorn
    refine Or.inr ⟨e, initialWorklist_mem heE (hall e he), l, hl, hc, ?_⟩
    have hempty : nonSupportNeighbors ⟨g, s, false, eg, vertexNeighbors g⟩ v = [] := by
      apply List.filter_eq_nil_iff.mpr
      intro n hn
      simp [hall n hn]
    simp [hempty]

/-- With `include_boundary_dofs = false`, the code's global dof count is
`interiorVertexCount`. -/
theorem globalDofCount_include_false (g : GridData) (s : Nat → Bool) (eg : Bool) :
    globalDofCountOf g
      (pass1Fold ⟨g, s, false, eg, vertexNeighbors g⟩
        (initialWorklist ⟨g, s, false, eg, vertexNeighbors g⟩) initPass1) =
      interiorVertexCount g s := by
  unfold globalDofCountOf interiorVertexCount
  congr 1
  apply List.filter_congr
  intro v _
  have h := pass1Fold_flag_include_false g s eg v
  cases hflag : (pass1Fold ⟨g, s, false, eg, vertexNeighbors g⟩
      (initialWorklist ⟨g, s, false, eg, vertexNeighbors g⟩)
      initPass1).vertexIsDof v
  · rw [hflag] at h
    have hnot : ¬(vertexNeighbors g v ≠ [] ∧ ∀ n ∈ vertexNeighbors g v, s n = true) := by
      intro hcontra
      exact absurd (h.mpr hcontra) (by simp)
    symm
    rcases not_and_or.mp hnot with h1 | h1
    · have : vertexNeighbors g v = [] := not_not.mp h1
      simp [this]
    · obtain ⟨n, hn, hsn⟩ := by
        push_neg at h1
        exact h1
      have : (vertexNeighbors g v).all s = false := by
        apply List.all_eq_false.mpr
        exact ⟨n, hn, hsn⟩
      simp [this]
  · rw [hflag] at h
    obtain ⟨hne, hall⟩ := h.mp rfl
    symm
    have h1 : (vertexNeighbors g v).isEmpty = false := by
      cases hemp : (vertexNeighbors g v).isEmpty
      · rfl
      · exact absurd (List.isEmpty_iff.mp hemp) hne
    have h2 : (vertexNeighbors g v).all s = true := List.all_eq_true.mpr hall
    simp [h1, h2]

/-! ### `ensure_global_continuity` without boundary dofs is inert -/

theorem stepLocal_ensure_irrelevant (g : GridData) (s : Nat → Bool)
    (adj : Nat → List Nat) (b1 b2 : Bool) (e l : Nat) (st : Pass1State) :
    stepLocal ⟨g, s, false, b1, adj⟩ e l st = stepLocal ⟨g, s, false, b2, adj⟩ e l st := by
  unfold stepLocal nonSupportNeighbors
  simp

theorem stepElement_ensure_irrelevant (g : GridData) (s : Nat → Bool)
    (adj : Nat → List Nat) (b1 b2 : Bool) (e : Nat) (st : Pass1State) :
    stepElement ⟨g, s, false, b1, adj⟩ e st = stepElement ⟨g, s, false, b2, adj⟩ e st := by
  unfold stepElement
  rw [stepLocal_ensure_irrelevant g s adj b1 b2 e 0,
    stepLocal_ensure_irrelevant g s adj b1 b2 e 1,
    stepLocal_ensure_irrelevant g s adj b1 b2 e 2]

theorem pass1Loop_ensure_irrelevant (g : GridData) (s : Nat → Bool)
    (adj : Nat → List Nat) (b1 b2 : Bool) :
    ∀ (fuel : Nat) (wl : List Nat) (i : Nat) (st : Pass1State),
      pass1Loop ⟨g, s, false, b1, adj⟩ fuel wl i st =
        pass1Loop ⟨g, s, false, b2, adj⟩ fuel wl i st := by
  intro fuel
  induction fuel with
  | zero => intro wl i st; rfl
  | succ fuel ih =>
    intro wl i st
    unfold pass1Loop
    by_cases h : i < wl.length
    · rw [dif_pos h, dif_pos h, appendsOfElement_nil rfl, appendsOfElement_nil rfl,
        stepElement_ensure_irrelevant g s adj b1 b2]
      exact ih _ _ _
    · rw [dif_neg h, dif_neg h]

/-! ### Non-termination of the traversal on the two-triangle mesh -/

theorem pc1_appends0 : appendsOfElement PC1 0 = [1, 1] := by decide

theorem pc1_appends1 : appendsOfElement PC1 1 = [1, 1, 1] := by decide

theorem pc1_loop_none :
    ∀ (fuel : Nat) (wl : List Nat) (i : Nat) (st : Pass1State),
      (∀ e ∈ wl, e = 0 ∨ e = 1) → i < wl.length →
      pass1Loop PC1 fuel wl i st = none := by
  intro fuel
  induction fuel with
  | zero =>
    intro wl i st _ hi
    simp [pass1Loop, hi]
  | succ fuel ih =>
    intro wl i st hw hi
    unfold pass1Loop
    rw [dif_pos hi]
    have hget := hw _ (List.get_mem wl i hi)
    apply ih
    · intro e he
      rcases List.mem_append.mp he with h1 | h1
      · exact hw e h1
      · rcases hget with h0 | h0 <;> rw [h0] at h1
        · rw [pc1_appends0] at h1
          rcases List.mem_cons.mp h1 with h | h
          · exact Or.inr h
          · rcases List.mem_cons.mp h with h | h
            · exact Or.inr h
            · simp at h
        · rw [pc1_appends1] at h1
          rcases List.mem_cons.mp h1 with h | h
          · exact Or.inr h
          · rcases List.mem_cons.mp h with h | h
            · exact Or.inr h
            · rcases List.mem_cons.mp h with h | h
              · exact Or.inr h
              · simp at h
    · rw [List.length_append]
      rcases hget with h0 | h0 <;> rw [h0]
      · rw [pc1_appends0]
        simp only [List.length_cons, List.length_nil]
        omega
      · rw [pc1_appends1]
        simp only [List.length_cons, List.length_nil]
        omega

/-! ### Claim theorems -/

/-- C1: the claim states that the P1-continuous working-list traversal
processes each newly appended element exactly once and terminates once no
further elements are added, for every mesh, support and flag setting.  The
code violates this: on the two-triangle mesh with support `{0}`,
`include_boundary_dofs = true` and `ensure_global_continuity = true`, the
traversal appends the non-support element 1, and every processing of
element 1 re-appends it (its vertices all have a non-support neighbor,
namely element 1 itself), so the position never catches up with the
growing list: for every fuel bound the run is still unfinished. -/
theorem c1_traversal_never_terminates (fuel : Nat) :
    computeP1DofMap fuel PC1 = none := by
  have hwl : initialWorklist PC1 = [0] := by decide
  have hrun : pass1Run fuel PC1 = none := by
    unfold pass1Run
    apply pc1_loop_none
    · intro e he
      rw [hwl] at he
      rcases List.mem_cons.mp he with h | h
      · exact Or.inl h
      · simp at h
    · rw [hwl]
      simp
  unfold computeP1DofMap
  rw [hrun]
  rfl

/-- C2 counterexample: on the three-triangle strip with support `{0, 1}`
and `include_boundary_dofs = false`, element 1 has exactly one assigned
slot (slot 0, dof 1, multiplier 1); slot 1 was never assigned, so by the
claim it should be filled with the minimum dof already assigned to the
element's other slots, which is 1 — but the code fills it with 0 (the
`np.min` runs over the zero-initialised final row). -/
theorem c2_counterexample :
    provisionalEntry 8 PStrip 1 1 = some (-1) ∧
    provisionalEntry 8 PStrip 1 2 = some (-1) ∧
    provisionalEntry 8 PStrip 1 0 = some 1 ∧
    p1Dof 8 PStrip 1 0 = some 1 ∧
    p1Mult 8 PStrip 1 0 = some 1 ∧
    p1Mult 8 PStrip 1 1 = some 0 ∧
    p1Dof 8 PStrip 1 1 = some 0 ∧
    (0 : Nat) ≠ 1 :=
  ⟨rfl, rfl, rfl, rfl, rfl, rfl, rfl, by decide⟩

/-- C2 (amended): for a support element processed with
`include_boundary_dofs = false`, a slot whose corner was never assigned a
vertex-dof receives the minimum of the element's final row as it stands
before the fill — never-assigned slots contributing their
zero-initialised value 0, assigned slots their translated dof — and its
local multiplier is 0. -/
theorem c2_min_fill (g : GridData) (s : Nat → Bool) (eg : Bool)
    (fuel e l : Nat) (hl : l < 3) (he : e < g.numElements) (hse : s e = true)
    (hprov : provisionalEntry fuel ⟨g, s, false, eg, vertexNeighbors g⟩ e l =
      some (-1)) :
    p1Dof fuel ⟨g, s, false, eg, vertexNeighbors g⟩ e l =
      (pass1Run fuel ⟨g, s, false, eg, vertexNeighbors g⟩).map
        (fun r => rowMinPreFill r.1 e) ∧
    p1Mult fuel ⟨g, s, false, eg, vertexNeighbors g⟩ e l = some 0 := by
  unfold provisionalEntry at hprov
  obtain ⟨r, hr, hval⟩ := Option.map_eq_some'.mp hprov
  have hreq := pass1Run_some_eq rfl hr
  have hmem : e ∈ r.2 := by
    rw [hreq]
    exact initialWorklist_mem he hse
  have hnd : r.2.Nodup := by
    rw [hreq]
    exact initialWorklist_nodup _
  have hrow := pass2Run_row r.1 r.2 e hnd hmem l hl
  constructor
  · unfold p1Dof computeP1DofMap
    rw [hr]
    have hfill : (pass2Run r.1 r.2).l2gFinal e l = rowMinPreFill r.1 e := by
      rw [hrow.1, if_pos hval]
    simp [hfill]
  · unfold p1Mult computeP1DofMap
    rw [hr]
    have hm0 : (pass2Run r.1 r.2).mult e l = 0 := by
      rw [hrow.2, if_pos hval]
    simp [hm0]

/-- C2 witness: the amended statement applied to the strip input. -/
theorem c2_min_fill_witness :
    p1Dof 8 ⟨gridStrip, supStrip, false, false, vertexNeighbors gridStrip⟩ 1 1 =
      (pass1Run 8 ⟨gridStrip, supStrip, false, false, vertexNeighbors gridStrip⟩).map
        (fun r => rowMinPreFill r.1 1) ∧
    p1Mult 8 ⟨gridStrip, supStrip, false, false, vertexNeighbors gridStrip⟩ 1 1 =
      some 0 :=
  c2_min_fill gridStrip supStrip false 8 1 1 (by omega) (by decide) rfl rfl

/-- C3 counterexample: on `gridRing`, support element 0 ends the first
pass with zero assigned vertex-dofs; the claim states construction then
aborts with a descriptive error, but the code completes (returns a map)
and leaves the element as a silent no-op with all multipliers 0. -/
theorem c3_counterexample :
    (computeP1DofMap 8 PRing).isSome = true ∧
    (pass1Run 8 PRing).map (fun r => (r.1.l2g 0 0, r.1.l2g 0 1, r.1.l2g 0 2)) =
      some (-1, -1, -1) ∧
    (computeP1DofMap 8 PRing).map (fun r => (r.2 0 0, r.2 0 1, r.2 0 2)) =
      some (0, 0, 0) ∧
    (computeP1DofMap 8 PRing).map (fun r => (r.1 0 0, r.1 0 1, r.1 0 2)) =
      some (0, 0, 0) :=
  ⟨rfl, rfl, rfl, rfl⟩

/-- C3 (amended): when a support element ends the first pass with zero
assigned vertex-dofs (all three provisional entries `-1`), construction
completes normally and leaves that element as a silent no-op: its
multipliers are all 0 and its `local2global` row is all zeros; no error
is raised. -/
theorem c3_zero_assigned_silent_noop (g : GridData) (s : Nat → Bool) (eg : Bool)
    (fuel e : Nat) (he : e < g.numElements) (hse : s e = true)
    (hprov : (pass1Run fuel ⟨g, s, false, eg, vertexNeighbors g⟩).map
        (fun r => (r.1.l2g e 0, r.1.l2g e 1, r.1.l2g e 2)) = some (-1, -1, -1)) :
    (computeP1DofMap fuel ⟨g, s, false, eg, vertexNeighbors g⟩).isSome = true ∧
    (∀ l, l < 3 →
      p1Mult fuel ⟨g, s, false, eg, vertexNeighbors g⟩ e l = some 0 ∧
      p1Dof fuel ⟨g, s, false, eg, vertexNeighbors g⟩ e l = some 0) := by
  obtain ⟨r, hr, hval⟩ := Option.map_eq_some'.mp hprov
  obtain ⟨h0, h1, h2⟩ : r.1.l2g e 0 = -1 ∧ r.1.l2g e 1 = -1 ∧ r.1.l2g e 2 = -1 := by
    have := hval
    rw [Prod.mk.injEq, Prod.mk.injEq] at this
    exact ⟨this.1, this.2.1, this.2.2⟩
  have hreq := pass1Run_some_eq rfl hr
  have hmem : e ∈ r.2 := by
    rw [hreq]
    exact initialWorklist_mem he hse
  have hnd : r.2.Nodup := by
    rw [hreq]
    exact initialWorklist_nodup _
  have hminzero : rowMinPreFill r.1 e = 0 := by
    unfold rowMinPreFill preFillEntry
    rw [if_pos h0, if_pos h1, if_pos h2]
    simp
  constructor
  · unfold computeP1DofMap
    rw [hr]
    rfl
  · intro l hl
    have hrow := pass2Run_row r.1 r.2 e hnd hmem l hl
    have hprovl : r.1.l2g e l = -1 := by
      interval_cases l
      · exact h0
      · exact h1
      · exact h2
    constructor
    · unfold p1Mult computeP1DofMap
      rw [hr]
      have hm0 : (pass2Run r.1 r.2).mult e l = 0 := by
        rw [hrow.2, if_pos hprovl]
      simp [hm0]
    · unfold p1Dof computeP1DofMap
      rw [hr]
      have hd0 : (pass2Run r.1 r.2).l2gFinal e l = 0 := by
        rw [hrow.1, if_pos hprovl, hminzero]
      simp [hd0]

/-- C3 witness: the amended statement applied to the ring input. -/
theorem c3_zero_assigned_witness :
    (computeP1DofMap 8 ⟨gridRing, supRing, false, false, vertexNeighbors gridRing⟩).isSome
      = true ∧
    (∀ l, l < 3 →
      p1Mult 8 ⟨gridRing, supRing, false, false, vertexNeighbors gridRing⟩ 0 l = some 0 ∧
      p1Dof 8 ⟨gridRing, supRing, false, false, vertexNeighbors gridRing⟩ 0 l = some 0) :=
  c3_zero_assigned_silent_noop gridRing supRing false 8 0 (by decide) rfl rfl

/-- C4 counterexample: on a mesh with one triangle (0,1,2), a fourth
isolated vertex and full support, the code's global dof count is 3, but
the number of vertices all of whose incident elements are in support —
read literally, as the claim states it — is 4 (the isolated vertex
vacuously qualifies). -/
theorem c4_counterexample :
    p1GlobalDofCount 4 PIso = some 3 ∧
    specCountVerticesAllInSupport gridIso supAll = 4 ∧
    (3 : Nat) ≠ 4 :=
  ⟨rfl, rfl, by decide⟩

/-- C4 (amended): with `include_boundary_dofs = false` the global dof
count equals the number of vertices incident to at least one element and
all of whose incident elements are in support; and the concrete
two-triangle scenario behaves exactly as the claim states
(count 4, rows `(0,1,2)` and `(1,2,3)`, multiplier 1 everywhere, the four
vertices receiving the four distinct dofs 0,1,2,3). -/
theorem c4_p1cont_dof_count (g : GridData) (s : Nat → Bool) (eg : Bool)
    (fuel c : Nat)
    (hc : p1GlobalDofCount fuel ⟨g, s, false, eg, vertexNeighbors g⟩ = some c) :
    c = interiorVertexCount g s ∧
    p1GlobalDofCount 8 PTT = some 4 ∧
    (computeP1DofMap 8 PTT).map
      (fun r => ((r.1 0 0, r.1 0 1, r.1 0 2), (r.1 1 0, r.1 1 1, r.1 1 2))) =
      some ((0, 1, 2), (1, 2, 3)) ∧
    (computeP1DofMap 8 PTT).map
      (fun r => ((r.2 0 0, r.2 0 1, r.2 0 2), (r.2 1 0, r.2 1 1, r.2 1 2))) =
      some ((1, 1, 1), (1, 1, 1)) ∧
    (pass1Run 8 PTT).map
      (fun r => (dofsOf r.1 0, dofsOf r.1 1, dofsOf r.1 2, dofsOf r.1 3)) =
      some (0, 1, 2, 3) := by
  refine ⟨?_, rfl, rfl, rfl, rfl⟩
  unfold p1GlobalDofCount at hc
  obtain ⟨r, hr, hval⟩ := Option.map_eq_some'.mp hc
  have hreq := pass1Run_some_eq rfl hr
  rw [← hval, hreq]
  exact globalDofCount_include_false g s eg

/-- C4 witness: the amended count theorem applied to the strip input,
where the code's count is 2 (vertices 0 and 1 are interior). -/
theorem c4_p1cont_dof_count_witness :
    (2 : Nat) = interiorVertexCount gridStrip supStrip ∧
    p1GlobalDofCount 8 PTT = some 4 ∧
    (computeP1DofMap 8 PTT).map
      (fun r => ((r.1 0 0, r.1 0 1, r.1 0 2), (r.1 1 0, r.1 1 1, r.1 1 2))) =
      some ((0, 1, 2), (1, 2, 3)) ∧
    (computeP1DofMap 8 PTT).map
      (fun r => ((r.2 0 0, r.2 0 1, r.2 0 2), (r.2 1 0, r.2 1 1, r.2 1 2))) =
      some ((1, 1, 1), (1, 1, 1)) ∧
    (pass1Run 8 PTT).map
      (fun r => (dofsOf r.1 0, dofsOf r.1 1, dofsOf r.1 2, dofsOf r.1 3)) =
      some (0, 1, 2, 3) :=
  c4_p1cont_dof_count gridStrip supStrip false 8 2 rfl

/-- C5: for every support mask, every `local2global` entry at a
multiplier-1 position is below the space's global dof count, for the P0
builder, the P1-discontinuous builder, and the P1-continuous builder
(whenever the latter's construction completes, on a valid mesh whose
vertex count fits a `uint32`). -/
theorem c5_multiplier_one_in_range (g : GridData) (s : Nat → Bool) :
    (∀ e, p0LocalMultipliers g s e = 1 →
      p0Local2Global g s e < p0GlobalDofCount g s) ∧
    (∀ e l, l < 3 → p1DiscLocalMultipliers g s e l = 1 →
      p1DiscLocal2Global g s e l < p1DiscGlobalDofCount g s) ∧
    (∀ (ib eg : Bool) (fuel e l d c : Nat), ValidGrid g →
      g.numVertices < 2 ^ 32 →
      p1Mult fuel ⟨g, s, ib, eg, vertexNeighbors g⟩ e l = some 1 →
      p1Dof fuel ⟨g, s, ib, eg, vertexNeighbors g⟩ e l = some d →
      p1GlobalDofCount fuel ⟨g, s, ib, eg, vertexNeighbors g⟩ = some c →
      d < c) := by
  refine ⟨?_, ?_, ?_⟩
  · intro e hm
    unfold p0LocalMultipliers at hm
    by_cases h1 : e < g.numElements
    · rw [if_pos h1] at hm
      by_cases h2 : s e = true
      · unfold p0Local2Global p0GlobalDofCount supportSize supportElementsList
        rw [if_pos h1, if_pos h2]
        exact countBelow_lt h2 h1
      · rw [if_neg h2] at hm
        simp at hm
    · rw [if_neg h1] at hm
      simp at hm
  · intro e l hl hm
    unfold p1DiscLocalMultipliers at hm
    by_cases h1 : e < g.numElements
    · rw [if_pos h1] at hm
      by_cases h2 : s e = true
      · unfold p1DiscLocal2Global p1DiscGlobalDofCount supportSize supportElementsList
        rw [if_pos h1, if_pos h2]
        have := countBelow_lt h2 h1
        unfold countBelow at this ⊢
        omega
      · rw [if_neg h2] at hm
        simp at hm
    · rw [if_neg h1] at hm
      simp at hm
  · intro ib eg fuel e l d c hvg hsize hm hd hcnt
    cases hr : pass1Run fuel ⟨g, s, ib, eg, vertexNeighbors g⟩ with
    | none =>
      unfold p1Mult computeP1DofMap at hm
      rw [hr] at hm
      simp at hm
    | some r =>
    have hmv : (pass2Run r.1 r.2).mult e l = 1 := by
      unfold p1Mult computeP1DofMap at hm
      rw [hr] at hm
      simpa using hm
    have hd2 : (pass2Run r.1 r.2).l2gFinal e l = d := by
      unfold p1Dof computeP1DofMap at hd
      rw [hr] at hd
      simpa using hd
    have hc2 : globalDofCountOf g r.1 = c := by
      unfold p1GlobalDofCount at hcnt
      rw [hr] at hcnt
      simpa using hcnt
    have hinv : Pass1Invariant g r.1 :=
      pass1Loop_inv ⟨g, s, ib, eg, vertexNeighbors g⟩ hvg (vertexNeighbors_lt g)
        fuel _ 0 _ r (initialWorklist_lt _) (pass1Invariant_init g) hr
    obtain ⟨v, hv, hflag, hl2g⟩ := pass2Run_mult_one r.1 hinv.1 r.2 e l hmv
    obtain ⟨hdofs, hlt⟩ := dofsOf_lt_count hflag (hinv.2 v hflag)
    have hcle : globalDofCountOf g r.1 ≤ g.numVertices := globalDofCountOf_le g r.1
    have hwrap : wrap32 (dofsOf r.1 v) = countBelow r.1.vertexIsDof v := by
      rw [hdofs]
      exact wrap32_ofNat (by omega)
    rw [hl2g, hwrap] at hd2
    omega

/-- C5 witness: the three parts instantiated on the two-triangle mesh
with full support. -/
theorem c5_multiplier_one_in_range_witness :
    p0Local2Global gridTwoTri supAll 1 < p0GlobalDofCount gridTwoTri supAll ∧
    p1DiscLocal2Global gridTwoTri supAll 1 2 <
      p1DiscGlobalDofCount gridTwoTri supAll ∧
    (1 : Nat) < 4 := by
  refine ⟨?_, ?_, ?_⟩
  · exact (c5_multiplier_one_in_range gridTwoTri supAll).1 1 rfl
  · exact (c5_multiplier_one_in_range gridTwoTri supAll).2.1 1 2 (by omega) rfl
  · exact (c5_multiplier_one_in_range gridTwoTri supAll).2.2 false false 8 0 1 1 4
      (by unfold ValidGrid; decide) (by decide) rfl rfl rfl

/-- C6: the `k`-th support element in ascending element order receives
the fresh dof `k` (P0) resp. the block `3k, 3k+1, 3k+2`
(P1-discontinuous); multipliers are 1 on all slots of support elements
and 0 elsewhere; the global dof count is the support size times the
number of local dofs. -/
theorem c6_fresh_dof_numbering (g : GridData) (s : Nat → Bool) :
    (∀ (k : Nat) (hk : k < (supportElementsList g s).length),
      p0Local2Global g s ((supportElementsList g s).get ⟨k, hk⟩) = k ∧
      ∀ l, l < 3 →
        p1DiscLocal2Global g s ((supportElementsList g s).get ⟨k, hk⟩) l =
          3 * k + l) ∧
    (∀ e, e < g.numElements → s e = true →
      p0LocalMultipliers g s e = 1 ∧ ∀ l, p1DiscLocalMultipliers g s e l = 1) ∧
    (∀ e, s e = false →
      p0LocalMultipliers g s e = 0 ∧ ∀ l, p1DiscLocalMultipliers g s e l = 0) ∧
    p0GlobalDofCount g s = supportSize g s * 1 ∧
    p1DiscGlobalDofCount g s = supportSize g s * 3 := by
  refine ⟨?_, ?_, ?_, (Nat.mul_one _).symm, Nat.mul_comm 3 _⟩
  · intro k hk
    have hmem := List.get_mem (supportElementsList g s) k hk
    have hflt := List.mem_filter.mp hmem
    have heE : (supportElementsList g s).get ⟨k, hk⟩ < g.numElements :=
      List.mem_range.mp hflt.1
    have hse : s ((supportElementsList g s).get ⟨k, hk⟩) = true := hflt.2
    have hrank : countBelow s ((supportElementsList g s).get ⟨k, hk⟩) = k :=
      countBelow_get_rank s g.numElements k hk
    constructor
    · unfold p0Local2Global
      rw [if_pos heE, if_pos hse, hrank]
    · intro l _
      unfold p1DiscLocal2Global
      rw [if_pos heE, if_pos hse, hrank]
  · intro e heE hse
    constructor
    · unfold p0LocalMultipliers
      rw [if_pos heE, if_pos hse]
    · intro l
      unfold p1DiscLocalMultipliers
      rw [if_pos heE, if_pos hse]
  · intro e hse
    have hse2 : ¬s e = true := by
      rw [hse]
      simp
    constructor
    · unfold p0LocalMultipliers
      by_cases h1 : e < g.numElements
      · rw [if_pos h1, if_neg hse2]
      · rw [if_neg h1]
    · intro l
      unfold p1DiscLocalMultipliers
      by_cases h1 : e < g.numElements
      · rw [if_pos h1, if_neg hse2]
      · rw [if_neg h1]

/-- C6 witness: the numbering applied to the strip (support elements 0
and 1; the second support element gets P0 dof 1 and P1 block ending at
5). -/
theorem c6_fresh_dof_numbering_witness :
    p0Local2Global gridStrip supStrip
      ((supportElementsList gridStrip supStrip).get ⟨1, by decide⟩) = 1 ∧
    p1DiscLocal2Global gridStrip supStrip
      ((supportElementsList gridStrip supStrip).get ⟨1, by decide⟩) 2 = 5 ∧
    p0LocalMultipliers gridStrip supStrip 0 = 1 ∧
    p1DiscLocalMultipliers gridStrip supStrip 2 1 = 0 := by
  have h := c6_fresh_dof_numbering gridStrip supStrip
  refine ⟨(h.1 1 (by decide)).1, ?_, (h.2.1 0 (by decide) rfl).1,
    ((h.2.2.1 2 rfl).2 1)⟩
  have h2 := (h.1 1 (by decide)).2 2 (by omega)
  rw [h2]

/-- C7: with `include_boundary_dofs = false`, running
`_compute_p1_dof_map` with `ensure_global_continuity = true` returns
exactly the same `local2global` and `local_multipliers` maps as running
it with `ensure_global_continuity = false` — the flag is an inert no-op
without boundary dofs. -/
theorem c7_ensure_without_include_same_maps (g : GridData) (s : Nat → Bool)
    (adj : Nat → List Nat) (fuel : Nat) :
    computeP1DofMap fuel ⟨g, s, false, true, adj⟩ =
      computeP1DofMap fuel ⟨g, s, false, false, adj⟩ := by
  unfold computeP1DofMap pass1Run
  rw [pass1Loop_ensure_irrelevant g s adj true false]
  rfl

/-- C8: the order-1 surface gradient evaluator returns the
(1 x 3 x 3 x N)-shaped tensor whose slice for local basis `i` at point
`n` is the element's inverse-transpose Jacobian applied to the
reference-gradient column of basis `i`; with the identity Jacobian the
output is the raw reference gradients unchanged. -/
theorem c8_gradient_evaluator (N : Nat) (jac : Matrix (Fin 3) (Fin 3) ℚ)
    (ref : Fin 1 → Fin 3 → Fin 3 → Fin N → ℚ) :
    (∀ (c : Fin 1) (i : Fin 3) (n : Fin N) (j : Fin 3),
      numba_p1_surface_gradient N jac ref c j i n =
        Matrix.mulVec jac (fun k => ref c k i n) j) ∧
    (jac = 1 → numba_p1_surface_gradient N jac ref = ref) := by
  constructor
  · intro c i n j
    simp [numba_p1_surface_gradient, Matrix.mulVec, Matrix.dotProduct, Fin.sum_univ_three]
  · rintro rfl
    funext c j i n
    simp [numba_p1_surface_gradient, Matrix.one_apply, ite_mul, zero_mul, one_mul,
      Finset.sum_ite_eq]

/-- C8 witness: the identity-Jacobian case on a concrete reference
gradient. -/
theorem c8_gradient_evaluator_witness :
    numba_p1_surface_gradient 1 (1 : Matrix (Fin 3) (Fin 3) ℚ) refGradW = refGradW :=
  (c8_gradient_evaluator 1 1 refGradW).2 rfl

/-- C9: for the adjacency the builder actually constructs, every listed
neighbor of `v` has `v` among its corners, so `find_index` never returns
`-1` and the continuity-extension write targets a slot in `{0, 1, 2}`;
for a neighbor without `v` among its corners, `find_index` returns `-1`
and the write lands on local slot 2 through negative indexing instead of
failing. -/
theorem c9_neighbor_slot_lookup (g : GridData) (v en : Nat) :
    (en ∈ vertexNeighbors g v → v ∈ cornersList g en) ∧
    (v ∈ cornersList g en →
      find_index (cornersList g en) v ≠ -1 ∧
      0 ≤ find_index (cornersList g en) v ∧
      find_index (cornersList g en) v < 3 ∧
      effectiveSlot (find_index (cornersList g en) v) < 3) ∧
    (v ∉ cornersList g en →
      find_index (cornersList g en) v = -1 ∧
      effectiveSlot (find_index (cornersList g en) v) = 2) := by
  refine ⟨fun h => (mem_vertexNeighbors.mp h).2, fun h => ?_, fun h => ?_⟩
  · obtain ⟨h1, h2⟩ := (find_index_spec v (cornersList g en)).1 h
    have hlen : ((cornersList g en).length : Int) = 3 := by
      simp [cornersList]
    rw [hlen] at h2
    refine ⟨by omega, h1, h2, ?_⟩
    unfold effectiveSlot
    rw [if_neg (by omega)]
    omega
  · have h1 := (find_index_spec v (cornersList g en)).2 h
    refine ⟨h1, ?_⟩
    rw [h1]
    rfl

/-- C9 witness: vertex 1 of the two-triangle mesh is a corner of its
neighbor element 0 (slot 1); vertex 7 is not a corner of element 0, and
the write would land on slot 2. -/
theorem c9_neighbor_slot_lookup_witness :
    (1 ∈ cornersList gridTwoTri 0) ∧
    find_index (cornersList gridTwoTri 0) 1 ≠ -1 ∧
    effectiveSlot (find_index (cornersList gridTwoTri 0) 1) < 3 ∧
    find_index (cornersList gridTwoTri 0) 7 = -1 ∧
    effectiveSlot (find_index (cornersList gridTwoTri 0) 7) = 2 := by
  refine ⟨(c9_neighbor_slot_lookup gridTwoTri 1 0).1 (by decide), ?_, ?_, ?_, ?_⟩
  · exact ((c9_neighbor_slot_lookup gridTwoTri 1 0).2.1 (by decide)).1
  · exact ((c9_neighbor_slot_lookup gridTwoTri 1 0).2.1 (by decide)).2.2.2
  · exact ((c9_neighbor_slot_lookup gridTwoTri 7 0).2.2 (by decide)).1
  · exact ((c9_neighbor_slot_lookup gridTwoTri 7 0).2.2 (by decide)).2

/-- C10: whatever the inputs, the space built by
`p1_continuous_function_space` stores exactly the support mask computed
from the constructor's inputs, and its dof arrays are exactly the pair
returned by `_compute_p1_dof_map` — the internal `support_final` array
is never returned; concretely, on the ring input `support_final` marks
element 0 false while the stored mask keeps it true. -/
theorem c10_support_mask_passthrough :
    (∀ (fuel : Nat) (g : GridData) (s : Nat → Bool) (ib eg : Bool),
      (p1ContinuousFunctionSpace fuel g s ib eg).map Space.support =
        (computeP1DofMap fuel ⟨g, s, ib, eg, vertexNeighbors g⟩).map (fun _ => s) ∧
      (p1ContinuousFunctionSpace fuel g s ib eg).map Space.local2global =
        (computeP1DofMap fuel ⟨g, s, ib, eg, vertexNeighbors g⟩).map Prod.fst ∧
      (p1ContinuousFunctionSpace fuel g s ib eg).map Space.localMultipliers =
        (computeP1DofMap fuel ⟨g, s, ib, eg, vertexNeighbors g⟩).map Prod.snd) ∧
    (pass1Run 8 PRing).map (fun r => (pass2Run r.1 r.2).supportFinal 0) =
      some false ∧
    supRing 0 = true ∧
    (p1ContinuousFunctionSpace 8 gridRing supRing false false).map
      (fun sp => sp.support 0) = some true := by
  refine ⟨?_, rfl, rfl, rfl⟩
  intro fuel g s ib eg
  unfold p1ContinuousFunctionSpace
  cases computeP1DofMap fuel ⟨g, s, ib, eg, vertexNeighbors g⟩ <;>
    exact ⟨rfl, rfl, rfl⟩

end BemppScalarSpaces
